import Mathlib

/-!
Shallow embedding of the Multi_Model_Option_Pricer_DLL repository
(C++ sources under `src/`): the yield curve with linear interpolation
(`YieldCurve.cpp`), date arithmetic (`DateConverter.cpp`), the option
contract record (`Option.hpp`), the pricing configuration
(`PricingConfiguration.hpp`) and the four pricing engines
(`BlackScholesPricer.cpp`, `BinomialPricer.cpp`, `CrankNicolsonPricer.cpp`,
`MonteCarloPricer.cpp`).

Modelling conventions:
* C++ `double` values are modelled as real numbers (`ℝ`); real division by
  zero follows Lean's `x / 0 = 0` convention.  No settled claim depends on a
  point where the two conventions differ.
* C++ exceptions are modelled with `Except Err`; each `throw` site of the
  source corresponds to one `Err` constructor.
* `std::erfc` (used by the source's `norm_cdf`) is a C library function and
  not part of the repository; the normal CDF is therefore a parameter
  `Phi : ℝ → ℝ` of the Black-Scholes definitions.  `norm_pdf` is defined
  concretely, exactly as in the source.
* The Mersenne-twister normal draws of the Monte Carlo engine are modelled
  as an input stream `Z : ℕ → ℝ`, consumed in the same order as the source
  consumes `norm(rng)`.
* `std::chrono` time points are modelled as real numbers counting hours;
  `duration_cast<hours>(...).count()` truncates toward zero, modelled by
  `trunc0`.
-/

namespace MultiModelPricer

noncomputable section

/-- Error kinds of the C++ core.  The first four correspond to `throw`
sites (spec section 7 gives them the names `EmptyCurve`, `UnstableTree`,
`ConfigError`, `UnsupportedStyle`).  `lengthError` is the
`std::length_error` raised by `std::vector<double> a(M-1, 0.0)` in
`CrankNicolsonPricer.cpp` line 117 when `M = 0` (the size underflows to a
huge `size_t`).  `outOfBounds` marks the out-of-bounds accesses into the
empty tridiagonal vectors at `M = 1` with at least one time step
(`CrankNicolsonPricer.cpp` lines 161-180) — undefined behaviour in C++,
modelled as this distinguished failure. -/
inductive Err where
  | emptyCurve
  | unstableTree
  | configError
  | unsupportedStyle
  | lengthError
  | outOfBounds
  deriving DecidableEq, Repr

/-- One sample of the yield curve (`YieldCurve.hpp`, struct `RatePoint`). -/
structure RatePoint where
  maturity : ℝ
  rate : ℝ

/-- Linear interpolation between two curve points
(`YieldCurve.cpp` lines 55-59). -/
def interp (p0 p1 : RatePoint) (t : ℝ) : ℝ :=
  p0.rate + (t - p0.maturity) / (p1.maturity - p0.maturity) * (p1.rate - p0.rate)

/-- The interpolation loop of `YieldCurve::getRate` (`YieldCurve.cpp`
lines 53-61): scan the points after the front, returning the first segment
whose right endpoint lies strictly beyond `t`. -/
def findSegment (t : ℝ) : RatePoint → List RatePoint → Option ℝ
  | _, [] => none
  | p0, p1 :: rest =>
    if t < p1.maturity then some (interp p0 p1 t) else findSegment t p1 rest

/-- `YieldCurve::getRate` (`YieldCurve.cpp` lines 38-65): throws on an empty
curve, returns the front rate for `t` at or below the front maturity, the
back rate for `t` at or above the back maturity, otherwise interpolates; the
trailing `return data_.back().rate` is the "should not be reached" branch. -/
def getRate (data : List RatePoint) (t : ℝ) : Except Err ℝ :=
  match data with
  | [] => .error .emptyCurve
  | p :: ps =>
    if t ≤ p.maturity then .ok p.rate
    else if t ≥ (ps.getLastD p).maturity then .ok (ps.getLastD p).rate
    else
      match findSegment t p ps with
      | some r => .ok r
      | none => .ok (ps.getLastD p).rate

/-- Call/Put (`Option.hpp`, `Option::OptionType`). -/
inductive OptionType where
  | Call
  | Put
  deriving DecidableEq, Repr

/-- European/American exercise (`Option.hpp`, `Option::OptionStyle`). -/
inductive OptionStyle where
  | European
  | American
  deriving DecidableEq, Repr

/-- The option contract (`Option.hpp`, class `Option`; renamed `Contract`
here — the spec's name for it — because `Option` is taken by Lean). -/
structure Contract where
  underlying : ℝ
  strike : ℝ
  volatility : ℝ
  dividend : ℝ
  type : OptionType
  style : OptionStyle

/-- The Greeks record (`Option.hpp`, struct `Greeks`). -/
structure Greeks where
  delta : ℝ
  gamma : ℝ
  vega : ℝ
  theta : ℝ
  rho : ℝ

/-- `PricingConfiguration.hpp`.  `calculationDate` is the parsed
`std::chrono` time point measured in hours (`none` models the empty string);
the `int` discretization counts are modelled as naturals (the host boundary
passes positive counts). -/
structure PricingConfiguration where
  calculationDate : Option ℝ
  maturity : ℝ
  riskFreeRate : ℝ
  yieldCurve : List RatePoint
  binomialSteps : ℕ
  crankTimeSteps : ℕ
  crankSpotSteps : ℕ
  S_max : ℝ
  mcNumPaths : ℕ
  mcTimeStepsPerPath : ℕ

/-- Truncation toward zero, the behaviour of
`duration_cast<hours>(...).count()` on a real number of hours. -/
def trunc0 (x : ℝ) : ℝ :=
  if 0 ≤ x then (⌊x⌋ : ℝ) else (⌈x⌉ : ℝ)

/-- `DateConverter::yearsBetween` (`DateConverter.cpp` lines 66-72): whole
hours between the two time points, divided by 24 and then by 365.25. -/
def yearsBetween (start finish : ℝ) : ℝ :=
  trunc0 (finish - start) / 24 / 365.25

/-- The effective time to maturity, the pattern shared by
`BlackScholesPricer.cpp` lines 104-110, `CrankNicolsonPricer.cpp` lines
80-86 and `MonteCarloPricer.cpp` lines 80-89: `T` unchanged when the
calculation date is empty, otherwise `T` minus the year offset between the
calculation date and today. -/
def effMaturity (cfg : PricingConfiguration) (today : ℝ) : ℝ :=
  match cfg.calculationDate with
  | none => cfg.maturity
  | some d => cfg.maturity - yearsBetween d today

/-- The vanilla payoff, `max(S-K, 0)` for a call and `max(K-S, 0)` for a
put, as computed at every payoff site of the four pricers. -/
def payoff (ty : OptionType) (K s : ℝ) : ℝ :=
  match ty with
  | .Call => max (s - K) 0
  | .Put => max (K - s) 0

/-- The local-rate ternary shared by `CrankNicolsonPricer.cpp` line 129 and
`MonteCarloPricer.cpp` lines 106/127/158/215: the default rate when the
curve is empty, otherwise the interpolated rate.  On a non-empty curve
`getRate` never errs; the error arm (unreachable) keeps the default. -/
def curveRateOr (curve : List RatePoint) (rdef : ℝ) (u : ℝ) : ℝ :=
  match curve with
  | [] => rdef
  | p :: ps =>
    match getRate (p :: ps) u with
    | .ok r => r
    | .error _ => rdef

/-- The source's `norm_pdf` (`BlackScholesPricer.cpp` lines 41-43). -/
def norm_pdf (x : ℝ) : ℝ :=
  (1 / Real.sqrt (2 * Real.pi)) * Real.exp (-0.5 * x * x)

/-- `d1` of the Black-Scholes formulas (`BlackScholesPricer.cpp` lines
115 and 169), with `effective_r` equal to the configured fallback rate. -/
def bsD1 (opt : Contract) (cfg : PricingConfiguration) (today : ℝ) : ℝ :=
  (Real.log (opt.underlying / opt.strike) +
      (cfg.riskFreeRate - opt.dividend + 0.5 * opt.volatility * opt.volatility) *
        effMaturity cfg today) /
    (opt.volatility * Real.sqrt (effMaturity cfg today))

/-- `d2 = d1 - σ√T_eff` (`BlackScholesPricer.cpp` lines 116 and 170). -/
def bsD2 (opt : Contract) (cfg : PricingConfiguration) (today : ℝ) : ℝ :=
  bsD1 opt cfg today - opt.volatility * Real.sqrt (effMaturity cfg today)

/-- The value returned by `BlackScholesPricer::price` on European input
(`BlackScholesPricer.cpp` lines 115-123).  `Phi` stands for the source's
`norm_cdf` (built on the C library's `erfc`). -/
def bsPriceValue (Phi : ℝ → ℝ) (opt : Contract) (cfg : PricingConfiguration)
    (today : ℝ) : ℝ :=
  let Teff := effMaturity cfg today
  let r := cfg.riskFreeRate
  match opt.type with
  | .Call =>
      opt.underlying * Real.exp (-opt.dividend * Teff) * Phi (bsD1 opt cfg today) -
        opt.strike * Real.exp (-r * Teff) * Phi (bsD2 opt cfg today)
  | .Put =>
      opt.strike * Real.exp (-r * Teff) * Phi (-bsD2 opt cfg today) -
        opt.underlying * Real.exp (-opt.dividend * Teff) * Phi (-bsD1 opt cfg today)

/-- `BlackScholesPricer::price` (`BlackScholesPricer.cpp` lines 89-124):
throws `UnsupportedStyle` on non-European input, otherwise total. -/
def bsPrice (Phi : ℝ → ℝ) (opt : Contract) (cfg : PricingConfiguration)
    (today : ℝ) : Except Err ℝ :=
  if opt.style ≠ OptionStyle.European then .error .unsupportedStyle
  else .ok (bsPriceValue Phi opt cfg today)

/-- The Greeks record built by `BlackScholesPricer::computeGreeks`
(`BlackScholesPricer.cpp` lines 149-203), including the final sign flip
`greeks.theta = -greeks.theta` of line 201. -/
def bsGreeksValue (Phi : ℝ → ℝ) (opt : Contract) (cfg : PricingConfiguration)
    (today : ℝ) : Greeks :=
  let S := opt.underlying
  let K := opt.strike
  let sigma := opt.volatility
  let q := opt.dividend
  let Teff := effMaturity cfg today
  let r := cfg.riskFreeRate
  let d1 := bsD1 opt cfg today
  let d2 := bsD2 opt cfg today
  let delta :=
    match opt.type with
    | .Call => Real.exp (-q * Teff) * Phi d1
    | .Put => -Real.exp (-q * Teff) * Phi (-d1)
  let gamma := Real.exp (-q * Teff) * norm_pdf d1 / (S * sigma * Real.sqrt Teff)
  let vega := S * Real.exp (-q * Teff) * norm_pdf d1 * Real.sqrt Teff
  let theta0 :=
    match opt.type with
    | .Call =>
        -(S * sigma * Real.exp (-q * Teff) * norm_pdf d1) / (2 * Real.sqrt Teff) -
            r * K * Real.exp (-r * Teff) * Phi d2 +
          q * S * Real.exp (-q * Teff) * Phi d1
    | .Put =>
        -(S * sigma * Real.exp (-q * Teff) * norm_pdf d1) / (2 * Real.sqrt Teff) +
            r * K * Real.exp (-r * Teff) * Phi (-d2) -
          q * S * Real.exp (-q * Teff) * Phi (-d1)
  let rho :=
    match opt.type with
    | .Call => K * Teff * Real.exp (-r * Teff) * Phi d2
    | .Put => -(K * Teff * Real.exp (-r * Teff) * Phi (-d2))
  { delta := delta, gamma := gamma, vega := vega, theta := -theta0, rho := rho }

/-- `BlackScholesPricer::computeGreeks` (`BlackScholesPricer.cpp` lines
144-204): throws `UnsupportedStyle` on non-European input. -/
def bsGreeks (Phi : ℝ → ℝ) (opt : Contract) (cfg : PricingConfiguration)
    (today : ℝ) : Except Err Greeks :=
  if opt.style ≠ OptionStyle.European then .error .unsupportedStyle
  else .ok (bsGreeksValue Phi opt cfg today)

/-- The forward risk-neutral probability of `BinomialPricer::price`
(`BinomialPricer.cpp` lines 90-96), built from the configured constant
rate: `p = (e^((r_const - q)·dt) - d)/(u - d)` with `dt = T/N`,
`u = e^(σ√dt)`, `d = 1/u`. -/
def binP0 (opt : Contract) (cfg : PricingConfiguration) : ℝ :=
  let dt := cfg.maturity / (cfg.binomialSteps : ℝ)
  let u := Real.exp (opt.volatility * Real.sqrt dt)
  let d := 1 / u
  (Real.exp ((cfg.riskFreeRate - opt.dividend) * dt) - d) / (u - d)

/-- Terminal payoffs of the binomial tree (`BinomialPricer.cpp` lines
102-111): node `j` of level `N` carries the intrinsic value of
`S·u^j·d^(N-j)`. -/
def binTerminal (opt : Contract) (u d : ℝ) (N : ℕ) : List ℝ :=
  (List.range (N + 1)).map fun j =>
    payoff opt.type opt.strike (opt.underlying * u ^ j * d ^ (N - j))

/-- One backward-induction level of `BinomialPricer::price`
(`BinomialPricer.cpp` lines 121-144) with local rate `r_local`: node `j` of
level `i` is the discounted expectation of nodes `j` and `j+1` of level
`i+1`, maximised against intrinsic value for American style.  The in-place
vector update of the source reads `prices[j]` and `prices[j+1]` before
either is overwritten, so it equals this functional map. -/
def binStepValues (opt : Contract) (u d dt r_local : ℝ) (i : ℕ)
    (prev : List ℝ) : List ℝ :=
  let p_local := (Real.exp ((r_local - opt.dividend) * dt) - d) / (u - d)
  let disc := Real.exp (-r_local * dt)
  (List.range (i + 1)).map fun j =>
    let cont := disc * (p_local * prev.getD (j + 1) 0 + (1 - p_local) * prev.getD j 0)
    match opt.style with
    | .American => max cont (payoff opt.type opt.strike (opt.underlying * u ^ j * d ^ (i - j)))
    | .European => cont

/-- The backward-induction loop of `BinomialPricer::price`
(`BinomialPricer.cpp` lines 113-145): with `k` levels left to process, the
next level is `i = k - 1`, its rate drawn from the yield curve at the
normalized time `i/N` — with no empty-curve guard, so `getRate` errors
propagate. -/
def binLoop (opt : Contract) (cfg : PricingConfiguration) (u d dt : ℝ) :
    ℕ → List ℝ → Except Err (List ℝ)
  | 0, v => .ok v
  | k + 1, v =>
    match getRate cfg.yieldCurve ((k : ℝ) / (cfg.binomialSteps : ℝ)) with
    | .error e => .error e
    | .ok r_local => binLoop opt cfg u d dt k (binStepValues opt u d dt r_local k v)

/-- `BinomialPricer::price` (`BinomialPricer.cpp` lines 78-149): validate
the constant-rate probability, then backward induction; the root value
`prices[0]` is the price. -/
def binomialPrice (opt : Contract) (cfg : PricingConfiguration) : Except Err ℝ :=
  let dt := cfg.maturity / (cfg.binomialSteps : ℝ)
  let u := Real.exp (opt.volatility * Real.sqrt dt)
  let d := 1 / u
  if binP0 opt cfg < 0 ∨ binP0 opt cfg > 1 then .error .unstableTree
  else
    match binLoop opt cfg u d dt cfg.binomialSteps (binTerminal opt u d cfg.binomialSteps) with
    | .error e => .error e
    | .ok v => .ok (v.getD 0 0)

/-- Modelled from the spec (section 3, "Local-rate contract"):
`rate_at(curve, r_fallback, u)` returns the fallback on an empty curve and
the interpolated/flat-extrapolated curve rate otherwise. -/
def rate_at (curve : List RatePoint) (rFallback : ℝ) (u : ℝ) : ℝ :=
  match getRate curve u with
  | .ok r => r
  | .error _ => rFallback

/-- Modelled from the spec (section 4.4): terminal payoff of the CRR tree,
the intrinsic value of `S₀·u^j·d^(N-j)` at node `j` of level `N`. -/
def crrTerminal (opt : Contract) (u d : ℝ) (N : ℕ) : List ℝ :=
  (List.range (N + 1)).map fun j =>
    payoff opt.type opt.strike (opt.underlying * u ^ j * d ^ (N - j))

/-- Modelled from the spec (section 4.4): one backward-induction step of the
CRR tree at step `i`, with `r_i = rate_at(curve, rFallback, i/N)` used in
both the per-step probability `p_i` and the per-step discount factor, and
the American value maximised against intrinsic value. -/
def crrStepValues (opt : Contract) (cfg : PricingConfiguration) (u d dt : ℝ)
    (i : ℕ) (prev : List ℝ) : List ℝ :=
  let r_i := rate_at cfg.yieldCurve cfg.riskFreeRate ((i : ℝ) / (cfg.binomialSteps : ℝ))
  let p_i := (Real.exp ((r_i - opt.dividend) * dt) - d) / (u - d)
  let disc := Real.exp (-r_i * dt)
  (List.range (i + 1)).map fun j =>
    let cont := disc * (p_i * prev.getD (j + 1) 0 + (1 - p_i) * prev.getD j 0)
    match opt.style with
    | .American => max cont (payoff opt.type opt.strike (opt.underlying * u ^ j * d ^ (i - j)))
    | .European => cont

/-- Modelled from the spec (section 4.4): the CRR backward induction from
step `N-1` down to `0`. -/
def crrLoop (opt : Contract) (cfg : PricingConfiguration) (u d dt : ℝ) :
    ℕ → List ℝ → List ℝ
  | 0, v => v
  | k + 1, v => crrLoop opt cfg u d dt k (crrStepValues opt cfg u d dt k v)

/-- Modelled from the spec (section 4.4): the root value `V₀,₀` of the CRR
backward induction, with `Δt = T_eff/N`, `u = e^(σ√Δt)`, `d = 1/u`, taking
the effective maturity as an explicit argument. -/
def crrSpecV00 (opt : Contract) (cfg : PricingConfiguration) (Teff : ℝ) : ℝ :=
  let dt := Teff / (cfg.binomialSteps : ℝ)
  let u := Real.exp (opt.volatility * Real.sqrt dt)
  let d := 1 / u
  (crrLoop opt cfg u d dt cfg.binomialSteps (crrTerminal opt u d cfg.binomialSteps)).getD 0 0

/-- Forward sweep of the Thomas algorithm (`CrankNicolsonPricer.cpp` lines
165-175): `(c_prime idx, d_prime idx)` for the tridiagonal system with
diagonals `a`, `b`, `c` and right-hand side `d`. -/
def thomasSweep (a b c d : ℕ → ℝ) : ℕ → ℝ × ℝ
  | 0 => (c 0 / b 0, d 0 / b 0)
  | j + 1 =>
    let prev := thomasSweep a b c d j
    let m := b (j + 1) - a (j + 1) * prev.1
    (c (j + 1) / m, (d (j + 1) - a (j + 1) * prev.2) / m)

/-- Back substitution of the Thomas algorithm (`CrankNicolsonPricer.cpp`
lines 177-180), indexed by the height `h` above the top interior row: the
value at row `j = M-1-h`, so height `0` is `newV[M-1] = d_prime[M-2]` and
each further row is `d_prime[j-1] - c_prime[j-1]·newV[j+1]`. -/
def cnInterior (cp dp : ℕ → ℝ) (M : ℕ) : ℕ → ℝ
  | 0 => dp (M - 2)
  | h + 1 => dp (M - 3 - h) - cp (M - 3 - h) * cnInterior cp dp M h

/-- One backward time step of `CrankNicolsonPricer::price`
(`CrankNicolsonPricer.cpp` lines 123-199) at time index `n`, mapping the
slice `V` to the next slice: local rate at normalized time
`(T_eff - t)/T_eff`, boundary values, tridiagonal assembly with the
boundary adjustments of lines 161-162, Thomas solve, and the American
projection of lines 188-199. -/
def cnStep (opt : Contract) (cfg : PricingConfiguration)
    (Teff Smax dS dt : ℝ) (M : ℕ) (n : ℕ) (V : ℕ → ℝ) : ℕ → ℝ :=
  let S := fun (j : ℕ) => (j : ℝ) * dS
  let sigma := opt.volatility
  let q := opt.dividend
  let t := (n : ℝ) * dt
  let normTime := (Teff - t) / Teff
  let r := curveRateOr cfg.yieldCurve cfg.riskFreeRate normTime
  let bnd0 :=
    match opt.type with
    | .Call => 0
    | .Put => opt.strike * Real.exp (-r * (Teff - t))
  let bndM :=
    match opt.type with
    | .Call => Smax - opt.strike * Real.exp (-r * (Teff - t))
    | .Put => 0
  let A := fun (j : ℕ) =>
    0.5 * dt * (0.5 * sigma * sigma * S j * S j / (dS * dS) - (r - q) * S j / (2 * dS))
  let B := fun (j : ℕ) =>
    1 + 0.5 * dt * (sigma * sigma * S j * S j / (dS * dS) + r)
  let C := fun (j : ℕ) =>
    0.5 * dt * (0.5 * sigma * sigma * S j * S j / (dS * dS) + (r - q) * S j / (2 * dS))
  let E := fun (j : ℕ) =>
    1 - 0.5 * dt * (sigma * sigma * S j * S j / (dS * dS) + r)
  let a := fun (idx : ℕ) => -A (idx + 1)
  let b := fun (idx : ℕ) => B (idx + 1)
  let c := fun (idx : ℕ) => -C (idx + 1)
  let d := fun (idx : ℕ) =>
    let base := A (idx + 1) * V idx + E (idx + 1) * V (idx + 1) + C (idx + 1) * V (idx + 2)
    let base1 := if idx = 0 then base - A 1 * bnd0 else base
    if idx = M - 2 then base1 - C (M - 1) * bndM else base1
  let cp := fun (idx : ℕ) => (thomasSweep a b c d idx).1
  let dp := fun (idx : ℕ) => (thomasSweep a b c d idx).2
  let newV := fun (j : ℕ) =>
    if j = 0 then bnd0
    else if j = M then bndM
    else cnInterior cp dp M (M - 1 - j)
  fun j =>
    match opt.style with
    | .American => max (newV j) (payoff opt.type opt.strike (S j))
    | .European => newV j

/-- The backward time loop of `CrankNicolsonPricer::price`: with `k` steps
already processed the next time index is `N - 1 - k`; step `0` is the
terminal payoff slice of lines 102-112. -/
def cnSlices (opt : Contract) (cfg : PricingConfiguration)
    (Teff Smax dS dt : ℝ) (M N : ℕ) : ℕ → (ℕ → ℝ)
  | 0 => fun j => payoff opt.type opt.strike ((j : ℝ) * dS)
  | k + 1 =>
    cnStep opt cfg Teff Smax dS dt M (N - 1 - k)
      (cnSlices opt cfg Teff Smax dS dt M N k)

/-- The value computed by `CrankNicolsonPricer::price`
(`CrankNicolsonPricer.cpp` lines 68-217): run all `N` backward steps, then
linearly interpolate the earliest slice at `S₀` (lines 202-214; the
truncating `static_cast<int>` is `⌊S₀/ΔS⌋` on the in-domain positive
quotient). -/
def cnPriceValue (opt : Contract) (cfg : PricingConfiguration) (today : ℝ) : ℝ :=
  let S0 := opt.underlying
  let K := opt.strike
  let Teff := effMaturity cfg today
  let M := cfg.crankSpotSteps
  let N := cfg.crankTimeSteps
  let Smax := if cfg.S_max > 0 then cfg.S_max else max (3 * K) (3 * S0)
  let dS := Smax / (M : ℝ)
  let dt := Teff / (N : ℝ)
  let V := cnSlices opt cfg Teff Smax dS dt M N N
  if S0 ≤ 0 then V 0
  else if S0 ≥ Smax then V M
  else
    let j := (⌊S0 / dS⌋).toNat
    let weight := (S0 - (j : ℝ) * dS) / dS
    V j * (1 - weight) + V (j + 1) * weight

/-- `CrankNicolsonPricer::price` as an engine operation.  The function body
contains no `throw` statement, but it is not total: the tridiagonal vectors
`a, b, c, d_vec` of size `M-1` are constructed before the time loop
(`CrankNicolsonPricer.cpp` lines 117-120), so `M = 0` underflows the size
and the vector constructor throws `std::length_error`; and with `M = 1` and
at least one time step the boundary adjustments and the Thomas sweep
(lines 161-180) index those empty vectors out of bounds — undefined
behaviour, modelled as the distinguished failure `outOfBounds`.  In every
other case the computed value is returned. -/
def cnPrice (opt : Contract) (cfg : PricingConfiguration) (today : ℝ) :
    Except Err ℝ :=
  if cfg.crankSpotSteps = 0 then .error .lengthError
  else if cfg.crankSpotSteps = 1 ∧ 1 ≤ cfg.crankTimeSteps then .error .outOfBounds
  else .ok (cnPriceValue opt cfg today)

/-- One simulated path of `MonteCarloPricer::price`: `(S, disc)` after `j`
GBM steps of path `i` (`MonteCarloPricer.cpp` lines 100-110; the American
grid of lines 122-131 recomputes the same recurrence, with the same draw
order, one normal draw per `(i, j)` consumed as `Z (i·NSteps + j)`). -/
def mcPath (Z : ℕ → ℝ) (opt : Contract) (cfg : PricingConfiguration)
    (Teff dt : ℝ) (i : ℕ) : ℕ → ℝ × ℝ
  | 0 => (opt.underlying, 1)
  | j + 1 =>
    let prev := mcPath Z opt cfg Teff dt i j
    let r := curveRateOr cfg.yieldCurve cfg.riskFreeRate (((j : ℝ) * dt) / Teff)
    let z := Z (i * cfg.mcTimeStepsPerPath + j)
    (prev.1 *
        Real.exp ((r - opt.dividend - 0.5 * opt.volatility * opt.volatility) * dt +
          opt.volatility * Real.sqrt dt * z),
      prev.2 * Real.exp (-r * dt))

/-- The variable-rate discount factor from step `t` to step `τ` used by the
Longstaff-Schwartz passes (`MonteCarloPricer.cpp` lines 155-160 and
211-217), with the backward normalized-time convention
`(T_eff - k·Δt)/T_eff`. -/
def mcDiscount (cfg : PricingConfiguration) (Teff dt : ℝ) (t τ : ℕ) : ℝ :=
  ((List.range' t (τ - t)).map fun k =>
    Real.exp (-(curveRateOr cfg.yieldCurve cfg.riskFreeRate
      ((Teff - (k : ℝ) * dt) / Teff)) * dt)).prod

/-- One backward Longstaff-Schwartz step at exercise time `t`
(`MonteCarloPricer.cpp` lines 143-208): collect the in-the-money paths not
yet re-marked, regress the discounted cash flows on `{1, X, X²}` by the
normal equations, skip when no path qualifies or the determinant is below
`10⁻¹⁰`, and re-mark the paths whose immediate exercise beats the fitted
continuation value.  `P i j` is the simulated spot of path `i` at step
`j`. -/
def lsStep (opt : Contract) (cfg : PricingConfiguration) (Teff dt : ℝ)
    (P : ℕ → ℕ → ℝ) (t : ℕ) (state : (ℕ → ℝ) × (ℕ → ℕ)) : (ℕ → ℝ) × (ℕ → ℕ) :=
  let NPaths := cfg.mcNumPaths
  let NSteps := cfg.mcTimeStepsPerPath
  let CF := state.1
  let tau := state.2
  let intrinsic := fun (i : ℕ) => payoff opt.type opt.strike (P i t)
  let itm := (List.range NPaths).filter fun i =>
    decide (0 < intrinsic i ∧ tau i = NSteps)
  let X := fun (i : ℕ) => P i t
  let Y := fun (i : ℕ) => CF i * mcDiscount cfg Teff dt t (tau i)
  let sum1 := (itm.map fun _ => (1 : ℝ)).sum
  let sumX := (itm.map fun i => X i).sum
  let sumX2 := (itm.map fun i => X i * X i).sum
  let sumX3 := (itm.map fun i => X i * X i * X i).sum
  let sumX4 := (itm.map fun i => X i * X i * X i * X i).sum
  let sumY := (itm.map fun i => Y i).sum
  let sumXY := (itm.map fun i => X i * Y i).sum
  let sumX2Y := (itm.map fun i => X i * X i * Y i).sum
  let D := sum1 * (sumX2 * sumX4 - sumX3 * sumX3) -
      sumX * (sumX * sumX4 - sumX2 * sumX3) +
    sumX2 * (sumX * sumX3 - sumX2 * sumX2)
  if itm = [] then state
  else if |D| < 1e-10 then state
  else
    let a0 := (sumY * (sumX2 * sumX4 - sumX3 * sumX3) -
        sumX * (sumXY * sumX4 - sumX3 * sumX2Y) +
      sumX2 * (sumXY * sumX3 - sumX2 * sumX2Y)) / D
    let a1 := (sum1 * (sumXY * sumX4 - sumX3 * sumX2Y) -
        sumY * (sumX * sumX4 - sumX2 * sumX3) +
      sumX2 * (sumX * sumX2Y - sumX2 * sumXY)) / D
    let a2 := (sum1 * (sumX2 * sumX2Y - sumX3 * sumXY) -
        sumX * (sumX * sumX2Y - sumX2 * sumXY) +
      sumY * (sumX * sumX3 - sumX2 * sumX2)) / D
    let exercise := fun (i : ℕ) =>
      decide (i ∈ itm) && decide (intrinsic i > a0 + a1 * X i + a2 * X i * X i)
    (fun i => if exercise i then intrinsic i else CF i,
     fun i => if exercise i then t else tau i)

/-- The backward Longstaff-Schwartz loop (`MonteCarloPricer.cpp` line 143):
with `k` exercise times already processed the next one is
`t = NSteps - 1 - k`; the initial state carries the terminal cash flows and
exercise indices of lines 132-140. -/
def lsLoop (opt : Contract) (cfg : PricingConfiguration) (Teff dt : ℝ)
    (P : ℕ → ℕ → ℝ) : ℕ → (ℕ → ℝ) × (ℕ → ℕ)
  | 0 =>
    (fun i => payoff opt.type opt.strike (P i cfg.mcTimeStepsPerPath),
     fun _ => cfg.mcTimeStepsPerPath)
  | k + 1 =>
    lsStep opt cfg Teff dt P (cfg.mcTimeStepsPerPath - 1 - k)
      (lsLoop opt cfg Teff dt P k)

/-- The value computed by `MonteCarloPricer::price` after the maturity
guard (`MonteCarloPricer.cpp` lines 90-221): plain GBM simulation for
European style, Longstaff-Schwartz for American style. -/
def mcCore (Z : ℕ → ℝ) (opt : Contract) (cfg : PricingConfiguration)
    (Teff : ℝ) : ℝ :=
  let NPaths := cfg.mcNumPaths
  let NSteps := cfg.mcTimeStepsPerPath
  let dt := Teff / (NSteps : ℝ)
  match opt.style with
  | .European =>
    ((List.range NPaths).map fun i =>
      payoff opt.type opt.strike (mcPath Z opt cfg Teff dt i NSteps).1 *
        (mcPath Z opt cfg Teff dt i NSteps).2).sum / (NPaths : ℝ)
  | .American =>
    let P := fun (i j : ℕ) => (mcPath Z opt cfg Teff dt i j).1
    let final := lsLoop opt cfg Teff dt P (NSteps - 1)
    ((List.range NPaths).map fun i =>
      final.1 i * mcDiscount cfg Teff dt 0 (final.2 i)).sum / (NPaths : ℝ)

/-- `MonteCarloPricer::price` (`MonteCarloPricer.cpp` lines 66-222): the
only `throw` is the effective-maturity guard of lines 81-89, hit when a
calculation date is given and its year offset to today reaches `T`. -/
def mcPrice (Z : ℕ → ℝ) (opt : Contract) (cfg : PricingConfiguration)
    (today : ℝ) : Except Err ℝ :=
  match cfg.calculationDate with
  | none => .ok (mcCore Z opt cfg cfg.maturity)
  | some dcal =>
    if yearsBetween dcal today ≥ cfg.maturity then .error .configError
    else .ok (mcCore Z opt cfg (cfg.maturity - yearsBetween dcal today))

/-- Modelled from the spec (section 4.3 and the claim on Theta): the
classical textbook Black-Scholes time-decay, evaluated at `r = rFallback`
and the effective maturity, for calls
`-(S·σ·e^(-qT)·φ(d1))/(2√T) - r·K·e^(-rT)·Φ(d2) + q·S·e^(-qT)·Φ(d1)` and
the put analog, with the classical `d1`, `d2`. -/
def textbookTheta (Phi : ℝ → ℝ) (opt : Contract) (cfg : PricingConfiguration)
    (today : ℝ) : ℝ :=
  let S := opt.underlying
  let K := opt.strike
  let sigma := opt.volatility
  let q := opt.dividend
  let T := effMaturity cfg today
  let r := cfg.riskFreeRate
  let d1 := (Real.log (S / K) + (r - q + 0.5 * sigma * sigma) * T) / (sigma * Real.sqrt T)
  let d2 := d1 - sigma * Real.sqrt T
  match opt.type with
  | .Call =>
      -(S * sigma * Real.exp (-q * T) * norm_pdf d1) / (2 * Real.sqrt T) -
          r * K * Real.exp (-r * T) * Phi d2 +
        q * S * Real.exp (-q * T) * Phi d1
  | .Put =>
      -(S * sigma * Real.exp (-q * T) * norm_pdf d1) / (2 * Real.sqrt T) +
          r * K * Real.exp (-r * T) * Phi (-d2) -
        q * S * Real.exp (-q * T) * Phi (-d1)

/-- On a non-empty curve `getRate` returns a value: every branch of the
cons case is `.ok`. -/
lemma getRate_cons_isOk (p : RatePoint) (ps : List RatePoint) (t : ℝ) :
    ∃ r, getRate (p :: ps) t = .ok r := by
  show ∃ r,
    (if t ≤ p.maturity then Except.ok p.rate
      else if t ≥ (ps.getLastD p).maturity then Except.ok (ps.getLastD p).rate
      else
        match findSegment t p ps with
        | some r => Except.ok r
        | none => Except.ok (ps.getLastD p).rate) = Except.ok (ε := Err) r
  split_ifs <;> try exact ⟨_, rfl⟩
  cases h : findSegment t p ps with
  | none => exact ⟨(ps.getLastD p).rate, rfl⟩
  | some r => exact ⟨r, rfl⟩

/-- `getRate` errors only on the empty curve, and then with `emptyCurve`. -/
lemma getRate_error (curve : List RatePoint) (t : ℝ) (e : Err)
    (h : getRate curve t = .error e) : curve = [] ∧ e = .emptyCurve := by
  cases curve with
  | nil =>
    refine ⟨rfl, ?_⟩
    simpa [getRate] using h.symm
  | cons p ps =>
    obtain ⟨r, hr⟩ := getRate_cons_isOk p ps t
    rw [hr] at h
    exact absurd h (by simp)

/-- On a non-empty curve the source's `getRate` agrees with the spec's
`rate_at` helper. -/
lemma getRate_eq_rate_at (p : RatePoint) (ps : List RatePoint)
    (rFallback t : ℝ) :
    getRate (p :: ps) t = .ok (rate_at (p :: ps) rFallback t) := by
  obtain ⟨r, hr⟩ := getRate_cons_isOk p ps t
  rw [hr, rate_at, hr]

/-- Unfolding equation for `getRate` on a non-empty curve. -/
lemma getRate_cons (p : RatePoint) (ps : List RatePoint) (t : ℝ) :
    getRate (p :: ps) t =
      if t ≤ p.maturity then .ok p.rate
      else if t ≥ (ps.getLastD p).maturity then .ok (ps.getLastD p).rate
      else
        match findSegment t p ps with
        | some r => .ok r
        | none => .ok (ps.getLastD p).rate := rfl

/-- The last point of a non-empty list, as a `get` at the final index. -/
lemma getLastD_eq_get (ps : List RatePoint) (p : RatePoint) (h : ps ≠ []) :
    ps.getLastD p = ps.get ⟨ps.length - 1, by
      cases ps with
      | nil => exact absurd rfl h
      | cons q qs => simp⟩ := by
  induction ps generalizing p with
  | nil => exact absurd rfl h
  | cons q qs ih =>
    rw [List.getLastD_cons]
    cases qs with
    | nil => simp [List.getLastD]
    | cons r rs => simpa using ih q (by simp)

/-- The default-last of a list is the default or a member. -/
lemma getLastD_mem (ps : List RatePoint) (p : RatePoint) (h : ps ≠ []) :
    ps.getLastD p ∈ ps := by
  rw [getLastD_eq_get ps p h]
  exact List.get_mem _ _ _

/-- If `t` lies strictly below the maturity of the last point and at or
above the maturity of the running left endpoint, the interpolation loop
finds a segment. -/
lemma findSegment_isSome_of_lt_last :
    ∀ (ps : List RatePoint) (p : RatePoint) (t : ℝ),
      t < (ps.getLastD p).maturity → p.maturity ≤ t →
      (findSegment t p ps).isSome
  | [], p, t, hlt, hge => by
    rw [List.getLastD_nil] at hlt
    exact absurd hlt (not_lt.mpr hge)
  | p1 :: rest, p, t, hlt, hge => by
    rw [findSegment]
    split_ifs with h
    · rfl
    · rw [List.getLastD_cons] at hlt
      exact findSegment_isSome_of_lt_last rest p1 t hlt (not_lt.mp h)

/-- C10: for every non-empty yield curve and every input `t`,
`YieldCurve::getRate` returns through one of the two endpoint checks or
through the interpolation loop: whenever both endpoint checks fail, the
loop finds a segment, so the trailing `return data_.back().rate` marked
"should not be reached" is indeed unreachable. -/
theorem claim_C10 (p : RatePoint) (ps : List RatePoint) (t : ℝ)
    (h1 : ¬ t ≤ p.maturity) (h2 : ¬ t ≥ (ps.getLastD p).maturity) :
    (findSegment t p ps).isSome ∧
      getRate (p :: ps) t =
        match findSegment t p ps with
        | some r => .ok r
        | none => .ok (ps.getLastD p).rate := by
  refine ⟨?_, by rw [getRate_cons, if_neg h1, if_neg h2]⟩
  exact findSegment_isSome_of_lt_last ps p t (not_le.mp h2) (le_of_lt (not_le.mp h1))

/-- Witness for C10 at the concrete curve `[(0, 1/50), (1, 1/10)]` and
`t = 1/2`. -/
theorem claim_C10_witness :
    (findSegment (1/2) ⟨0, 1/50⟩ [⟨1, 1/10⟩]).isSome := by
  refine (claim_C10 ⟨0, 1/50⟩ [⟨1, 1/10⟩] (1/2) ?_ ?_).1
  · norm_num
  · simp only [List.getLastD_cons, List.getLastD_nil]
    norm_num

/-- Interpolating at the left endpoint of a segment gives its rate. -/
lemma interp_left (p0 p1 : RatePoint) : interp p0 p1 p0.maturity = p0.rate := by
  simp [interp]

/-- Under strictly increasing maturities, the interpolation loop started at
`p` on the tail `ps` returns exactly the stored rate of any sample of `ps`
that is not the last one. -/
lemma findSegment_get :
    ∀ (ps : List RatePoint) (p : RatePoint) (j : ℕ) (hj : j + 1 < ps.length),
      ((p :: ps).Pairwise fun a b => a.maturity < b.maturity) →
      findSegment (ps.get ⟨j, by omega⟩).maturity p ps =
        some (ps.get ⟨j, by omega⟩).rate
  | [], _, j, hj, _ => by simp at hj
  | p1 :: rest, p, 0, hj, hpair => by
    have hrest : rest ≠ [] := by
      simp only [List.length_cons] at hj
      exact List.ne_nil_of_length_pos (by omega)
    cases rest with
    | nil => exact absurd rfl hrest
    | cons p2 rest2 =>
      have h12 : p1.maturity < p2.maturity :=
        ((List.pairwise_cons.mp (List.pairwise_cons.mp hpair).2).1 p2 (by simp))
      show findSegment p1.maturity p (p1 :: p2 :: rest2) = some p1.rate
      rw [findSegment, if_neg (lt_irrefl _), findSegment, if_pos h12, interp_left]
  | p1 :: rest, p, j + 1, hj, hpair => by
    have hj' : j + 1 < rest.length := by simpa using hj
    have hmem : rest.get ⟨j, by omega⟩ ∈ rest := List.get_mem _ _ _
    have h1t : p1.maturity < (rest.get ⟨j, by omega⟩).maturity :=
      (List.pairwise_cons.mp (List.pairwise_cons.mp hpair).2).1 _ hmem
    show findSegment ((rest.get ⟨j, by omega⟩).maturity) p (p1 :: rest) =
      some ((rest.get ⟨j, by omega⟩).rate)
    rw [findSegment, if_neg (not_lt.mpr (le_of_lt h1t))]
    exact findSegment_get rest p1 j hj' (List.pairwise_cons.mp hpair).2

/-- C5 (amended): on a curve whose maturities are strictly increasing,
`getRate` returns the stored rate of every sample exactly:
`rate(u_k) = r_k`. -/
theorem claim_C5 (curve : List RatePoint)
    (hpair : curve.Pairwise fun a b => a.maturity < b.maturity)
    (k : Fin curve.length) :
    getRate curve (curve.get k).maturity = .ok (curve.get k).rate := by
  cases curve with
  | nil => exact k.elim0
  | cons p ps =>
    obtain ⟨kv, hk⟩ := k
    cases kv with
    | zero =>
      show getRate (p :: ps) p.maturity = .ok p.rate
      rw [getRate_cons, if_pos le_rfl]
    | succ j =>
      have hj : j < ps.length := by simpa using hk
      show getRate (p :: ps) ((ps.get ⟨j, hj⟩).maturity) = .ok ((ps.get ⟨j, hj⟩).rate)
      have hpt : p.maturity < (ps.get ⟨j, hj⟩).maturity :=
        (List.pairwise_cons.mp hpair).1 _ (List.get_mem _ _ _)
      have hne : ps ≠ [] := List.ne_nil_of_length_pos (by omega)
      rw [getRate_cons, if_neg (not_le.mpr hpt)]
      by_cases hlast : j + 1 < ps.length
      · have hlt : (ps.get ⟨j, hj⟩).maturity < (ps.getLastD p).maturity := by
          rw [getLastD_eq_get ps p hne]
          exact List.pairwise_iff_get.mp (List.pairwise_cons.mp hpair).2
            ⟨j, hj⟩ ⟨ps.length - 1, by omega⟩ (Fin.mk_lt_mk.mpr (by omega))
        rw [if_neg (not_le.mpr hlt), findSegment_get ps p j hlast hpair]
      · have hjlast : j = ps.length - 1 := by omega
        subst hjlast
        have hgl : ps.getLastD p = ps.get ⟨ps.length - 1, hj⟩ :=
          getLastD_eq_get ps p hne
        rw [hgl, if_pos le_rfl]

/-- C5 counterexample: the claim quantifies over every non-empty curve and
every stored sample; on the (non-decreasingly ordered) curve
`[(1, 1/100), (1, 2/100)]` the sample `(1, 2/100)` is stored, yet
`rate(1)` returns `1/100`, the first duplicate's rate. -/
theorem claim_C5_counterexample :
    (⟨1, 2/100⟩ : RatePoint) ∈ ([⟨1, 1/100⟩, ⟨1, 2/100⟩] : List RatePoint) ∧
      getRate [⟨1, 1/100⟩, ⟨1, 2/100⟩] 1 ≠ .ok ((2 : ℝ)/100) := by
  constructor
  · simp
  · rw [getRate_cons, if_pos (le_refl (1 : ℝ))]
    simp only [ne_eq, Except.ok.injEq]
    norm_num

/-- Witness for C5 on the strictly increasing curve
`[(0, 1/100), (1, 2/100)]` at its second sample. -/
theorem claim_C5_witness :
    getRate [⟨0, 1/100⟩, ⟨1, 2/100⟩] 1 = .ok ((2 : ℝ)/100) := by
  have h := claim_C5 [⟨0, 1/100⟩, ⟨1, 2/100⟩]
    (by norm_num [List.pairwise_cons]) ⟨1, by norm_num⟩
  simpa using h

/-- C6 (amended): on a non-empty curve with strictly increasing maturities,
`getRate` extrapolates flat at both endpoints: the first rate for `t` at or
below the first maturity and the last rate for `t` at or above the last
maturity.  (Strictness is needed: when the first and last maturities
coincide, the `t ≤ first` branch shadows the `t ≥ last` one.) -/
theorem claim_C6 (p : RatePoint) (ps : List RatePoint) (t : ℝ)
    (hpair : (p :: ps).Pairwise fun a b => a.maturity < b.maturity) :
    (t ≤ p.maturity → getRate (p :: ps) t = .ok p.rate) ∧
      ((ps.getLastD p).maturity ≤ t →
        getRate (p :: ps) t = .ok (ps.getLastD p).rate) := by
  constructor
  · intro h
    rw [getRate_cons, if_pos h]
  · intro h
    cases ps with
    | nil =>
      simp only [List.getLastD_nil] at h ⊢
      rw [getRate_cons]
      by_cases h1 : t ≤ p.maturity
      · rw [if_pos h1]
      · rw [if_neg h1]
        simp only [List.getLastD_nil]
        rw [if_pos h]
    | cons q qs =>
      have hplast : p.maturity < ((q :: qs).getLastD p).maturity :=
        (List.pairwise_cons.mp hpair).1 _ (getLastD_mem _ p (by simp))
      rw [getRate_cons, if_neg (not_le.mpr (lt_of_lt_of_le hplast h)), if_pos h]

/-- C6 counterexample: the curve `[(1, 3/100), (1, 4/100)]` is in
non-decreasing maturity order and `t = 1` is at the last maturity, yet
`rate(1)` returns the first rate `3/100`, not the last rate `4/100`. -/
theorem claim_C6_counterexample :
    (([⟨1, 3/100⟩, ⟨1, 4/100⟩] : List RatePoint).Pairwise
        fun a b => a.maturity ≤ b.maturity) ∧
      (([⟨1, 4/100⟩] : List RatePoint).getLastD ⟨1, 3/100⟩).maturity ≤ 1 ∧
      getRate [⟨1, 3/100⟩, ⟨1, 4/100⟩] 1 ≠ .ok ((4 : ℝ)/100) := by
  refine ⟨by norm_num [List.pairwise_cons], by simp [List.getLastD_cons], ?_⟩
  rw [getRate_cons, if_pos (le_refl (1 : ℝ))]
  simp only [ne_eq, Except.ok.injEq]
  norm_num

/-- Witness for C6 on the strictly increasing curve
`[(0, 1/100), (1, 2/100)]`, below the first and above the last maturity. -/
theorem claim_C6_witness :
    getRate [⟨0, 1/100⟩, ⟨1, 2/100⟩] (-1) = .ok ((1 : ℝ)/100) ∧
      getRate [⟨0, 1/100⟩, ⟨1, 2/100⟩] 2 = .ok ((2 : ℝ)/100) := by
  constructor
  · exact (claim_C6 ⟨0, 1/100⟩ [⟨1, 2/100⟩] (-1)
      (by norm_num [List.pairwise_cons])).1 (by norm_num)
  · have h2 := (claim_C6 ⟨0, 1/100⟩ [⟨1, 2/100⟩] 2
      (by norm_num [List.pairwise_cons])).2
    simp only [List.getLastD_cons, List.getLastD_nil] at h2
    exact h2 (by norm_num)

/-- Positional constructor for concrete configurations, used by the
witnesses. -/
def mkCfg (cd : Option ℝ) (T r : ℝ) (curve : List RatePoint)
    (nb nt ns : ℕ) (smax : ℝ) (np nsp : ℕ) : PricingConfiguration :=
  ⟨cd, T, r, curve, nb, nt, ns, smax, np, nsp⟩

/-- Two configurations agreeing on every field except the yield curve give
the same effective maturity. -/
lemma effMaturity_congr (cfg1 cfg2 : PricingConfiguration) (today : ℝ)
    (hdate : cfg1.calculationDate = cfg2.calculationDate)
    (hT : cfg1.maturity = cfg2.maturity) :
    effMaturity cfg1 today = effMaturity cfg2 today := by
  unfold effMaturity
  rw [hdate, hT]

/-- C7: the Black-Scholes engine ignores the yield curve: for any two
configurations that differ only in the curve field, both the price and the
Greeks are identical. -/
theorem claim_C7 (Phi : ℝ → ℝ) (opt : Contract)
    (cfg1 cfg2 : PricingConfiguration) (today : ℝ)
    (hdate : cfg1.calculationDate = cfg2.calculationDate)
    (hT : cfg1.maturity = cfg2.maturity)
    (hr : cfg1.riskFreeRate = cfg2.riskFreeRate)
    (hbin : cfg1.binomialSteps = cfg2.binomialSteps)
    (hct : cfg1.crankTimeSteps = cfg2.crankTimeSteps)
    (hcs : cfg1.crankSpotSteps = cfg2.crankSpotSteps)
    (hsm : cfg1.S_max = cfg2.S_max)
    (hmp : cfg1.mcNumPaths = cfg2.mcNumPaths)
    (hms : cfg1.mcTimeStepsPerPath = cfg2.mcTimeStepsPerPath) :
    bsPrice Phi opt cfg1 today = bsPrice Phi opt cfg2 today ∧
      bsGreeks Phi opt cfg1 today = bsGreeks Phi opt cfg2 today := by
  have heff := effMaturity_congr cfg1 cfg2 today hdate hT
  have hd1 : bsD1 opt cfg1 today = bsD1 opt cfg2 today := by
    unfold bsD1
    rw [heff, hr]
  have hd2 : bsD2 opt cfg1 today = bsD2 opt cfg2 today := by
    unfold bsD2
    rw [hd1, heff]
  constructor
  · unfold bsPrice bsPriceValue
    rw [heff, hr, hd1, hd2]
  · unfold bsGreeks bsGreeksValue
    rw [heff, hr, hd1, hd2]

/-- Witness for C7: empty versus one-point curve, all other fields equal. -/
theorem claim_C7_witness :
    bsPrice (fun _ => 0) ⟨100, 100, 1/5, 0, .Call, .European⟩
        (mkCfg none 1 (1/20) [] 100 100 100 0 10000 100) 0 =
      bsPrice (fun _ => 0) ⟨100, 100, 1/5, 0, .Call, .European⟩
        (mkCfg none 1 (1/20) [⟨0, 1/100⟩] 100 100 100 0 10000 100) 0 ∧
    bsGreeks (fun _ => 0) ⟨100, 100, 1/5, 0, .Call, .European⟩
        (mkCfg none 1 (1/20) [] 100 100 100 0 10000 100) 0 =
      bsGreeks (fun _ => 0) ⟨100, 100, 1/5, 0, .Call, .European⟩
        (mkCfg none 1 (1/20) [⟨0, 1/100⟩] 100 100 100 0 10000 100) 0 :=
  claim_C7 (fun _ => 0) ⟨100, 100, 1/5, 0, .Call, .European⟩
    (mkCfg none 1 (1/20) [] 100 100 100 0 10000 100)
    (mkCfg none 1 (1/20) [⟨0, 1/100⟩] 100 100 100 0 10000 100) 0
    rfl rfl rfl rfl rfl rfl rfl rfl rfl

/-- C8: the Black-Scholes engine signals `UnsupportedStyle` on American
input for both operations, and on European input both operations return a
value and in particular never raise that error. -/
theorem claim_C8 (Phi : ℝ → ℝ) (opt : Contract) (cfg : PricingConfiguration)
    (today : ℝ) :
    (opt.style = .American →
      bsPrice Phi opt cfg today = .error .unsupportedStyle ∧
        bsGreeks Phi opt cfg today = .error .unsupportedStyle) ∧
      (opt.style = .European →
        bsPrice Phi opt cfg today = .ok (bsPriceValue Phi opt cfg today) ∧
          bsGreeks Phi opt cfg today = .ok (bsGreeksValue Phi opt cfg today)) := by
  constructor <;> intro h <;>
    constructor <;> simp [bsPrice, bsGreeks, h]

/-- Witness for C8 at an American put and a European call. -/
theorem claim_C8_witness :
    (bsPrice (fun _ => 0) ⟨100, 100, 1/5, 0, .Put, .American⟩
        (mkCfg none 1 (1/20) [] 100 100 100 0 10000 100) 0 =
      .error .unsupportedStyle) ∧
    (bsGreeks (fun _ => 0) ⟨100, 100, 1/5, 0, .Call, .European⟩
        (mkCfg none 1 (1/20) [] 100 100 100 0 10000 100) 0 =
      .ok (bsGreeksValue (fun _ => 0) ⟨100, 100, 1/5, 0, .Call, .European⟩
        (mkCfg none 1 (1/20) [] 100 100 100 0 10000 100) 0)) := by
  constructor
  · exact ((claim_C8 (fun _ => 0) ⟨100, 100, 1/5, 0, .Put, .American⟩
      (mkCfg none 1 (1/20) [] 100 100 100 0 10000 100) 0).1 rfl).1
  · exact ((claim_C8 (fun _ => 0) ⟨100, 100, 1/5, 0, .Call, .European⟩
      (mkCfg none 1 (1/20) [] 100 100 100 0 10000 100) 0).2 rfl).2

/-- C9: for every European contract the Theta returned by the
Black-Scholes Greeks is the negation of the classical textbook time-decay
formula evaluated at `r = rFallback` and the effective maturity. -/
theorem claim_C9 (Phi : ℝ → ℝ) (opt : Contract) (cfg : PricingConfiguration)
    (today : ℝ) (h : opt.style = .European) :
    bsGreeks Phi opt cfg today = .ok (bsGreeksValue Phi opt cfg today) ∧
      (bsGreeksValue Phi opt cfg today).theta =
        -(textbookTheta Phi opt cfg today) := by
  constructor
  · simp [bsGreeks, h]
  · cases htype : opt.type <;>
      simp [bsGreeksValue, textbookTheta, bsD1, bsD2, htype]

/-- Witness for C9 at a concrete European call. -/
theorem claim_C9_witness :
    (bsGreeksValue (fun _ => 0) ⟨100, 100, 1/5, 0, .Call, .European⟩
        (mkCfg none 1 (1/20) [] 100 100 100 0 10000 100) 0).theta =
      -(textbookTheta (fun _ => 0) ⟨100, 100, 1/5, 0, .Call, .European⟩
        (mkCfg none 1 (1/20) [] 100 100 100 0 10000 100) 0) :=
  (claim_C9 (fun _ => 0) ⟨100, 100, 1/5, 0, .Call, .European⟩
    (mkCfg none 1 (1/20) [] 100 100 100 0 10000 100) 0 rfl).2

/-- The binomial backward loop errors only through `getRate`, hence only
with `emptyCurve`. -/
lemma binLoop_error (opt : Contract) (cfg : PricingConfiguration)
    (u d dt : ℝ) :
    ∀ (k : ℕ) (v : List ℝ) (e : Err),
      binLoop opt cfg u d dt k v = .error e → e = .emptyCurve
  | 0, v, e, h => by simp [binLoop] at h
  | k + 1, v, e, h => by
    rw [binLoop] at h
    cases hg : getRate cfg.yieldCurve ((k : ℝ) / (cfg.binomialSteps : ℝ)) with
    | error e' =>
      rw [hg] at h
      cases h
      exact (getRate_error _ _ _ hg).2
    | ok r =>
      rw [hg] at h
      exact binLoop_error opt cfg u d dt k _ e h

/-- `BinomialPricer::price` errors only with `unstableTree` or
`emptyCurve`. -/
lemma binomialPrice_error (opt : Contract) (cfg : PricingConfiguration)
    (e : Err) (h : binomialPrice opt cfg = .error e) :
    e = .unstableTree ∨ e = .emptyCurve := by
  simp only [binomialPrice] at h
  split_ifs at h with hp
  · cases h
    exact Or.inl rfl
  · split at h
    next e' heq =>
      cases h
      exact Or.inr (binLoop_error opt cfg _ _ _ _ _ _ heq)
    next v heq => exact absurd h (by simp)

/-- Evaluation of the year offset at the witness dates: 17532 hours are
730.5 days, exactly two 365.25-day years. -/
lemma yearsBetween_eval : yearsBetween 0 17532 = 2 := by
  unfold yearsBetween trunc0
  rw [if_pos (by norm_num)]
  norm_num

/-- C2 (amended): only the Monte Carlo engine validates the effective
maturity — its price fails exactly with `ConfigError` and exactly when a
valuation date is present whose year offset to today reaches the maturity
(in particular it succeeds for an absent or fresh valuation date); the
Black-Scholes, binomial and Crank-Nicolson engines never signal
`ConfigError`: Black-Scholes can fail only with `UnsupportedStyle`, the
binomial engine only with `UnstableTree` or `EmptyCurve`, and
Crank-Nicolson only with the unchecked `length_error` at `M = 0` or the
out-of-bounds access at `M = 1` with `N ≥ 1`. -/
theorem claim_C2 (Z : ℕ → ℝ) (Phi : ℝ → ℝ) (opt : Contract)
    (cfg : PricingConfiguration) (today : ℝ) :
    (∀ e, mcPrice Z opt cfg today = .error e ↔
        e = .configError ∧ ∃ d, cfg.calculationDate = some d ∧
          cfg.maturity ≤ yearsBetween d today) ∧
      (∀ e, bsPrice Phi opt cfg today = .error e → e = .unsupportedStyle) ∧
      (∀ e, binomialPrice opt cfg = .error e →
        e = .unstableTree ∨ e = .emptyCurve) ∧
      (∀ e, cnPrice opt cfg today = .error e →
        e = .lengthError ∨ e = .outOfBounds) := by
  refine ⟨?_, ?_, ?_, ?_⟩
  · intro e
    unfold mcPrice
    cases hd : cfg.calculationDate with
    | none => simp
    | some d0 =>
      show (if yearsBetween d0 today ≥ cfg.maturity then
          Except.error Err.configError
        else Except.ok (mcCore Z opt cfg (cfg.maturity - yearsBetween d0 today))) =
          Except.error e ↔ _
      split_ifs with hge
      · constructor
        · intro h
          cases h
          exact ⟨rfl, d0, rfl, hge⟩
        · rintro ⟨he, -⟩
          rw [he]
      · constructor
        · intro h
          exact absurd h (by simp)
        · rintro ⟨-, d, hdd, hle⟩
          injection hdd with hdd
          subst hdd
          exact absurd hle hge
  · intro e h
    unfold bsPrice at h
    split_ifs at h with hs
    cases h
    rfl
  · exact fun e h => binomialPrice_error opt cfg e h
  · intro e h
    unfold cnPrice at h
    split_ifs at h with h1 h2
    · cases h
      exact Or.inl rfl
    · cases h
      exact Or.inr rfl

/-- C2 counterexample: with a valuation date two years in the past and
`T = 1` the effective maturity is `-1 ≤ 0`, yet the Black-Scholes price on
a European contract returns a value instead of failing with
`ConfigError`. -/
theorem claim_C2_counterexample :
    effMaturity (mkCfg (some 0) 1 (1/20) [] 100 100 100 0 10 10) 17532 = -1 ∧
      bsPrice (fun _ => 0) ⟨100, 100, 1/5, 0, .Call, .European⟩
          (mkCfg (some 0) 1 (1/20) [] 100 100 100 0 10 10) 17532 ≠
        .error .configError := by
  constructor
  · show (1 : ℝ) - yearsBetween 0 17532 = -1
    rw [yearsBetween_eval]
    norm_num
  · simp [bsPrice]

/-- Witness for C2: the Monte Carlo guard fires on a stale valuation date
two years past, and with the same valuation date *present but fresh*
(offset `0 < T = 1`) the price never fails. -/
theorem claim_C2_witness :
    mcPrice (fun _ => 0) ⟨100, 100, 1/5, 0, .Call, .European⟩
        (mkCfg (some 0) 1 (1/20) [] 100 100 100 0 10 10) 17532 =
      .error .configError ∧
      ∀ e, mcPrice (fun _ => 0) ⟨100, 100, 1/5, 0, .Call, .European⟩
          (mkCfg (some 0) 1 (1/20) [] 100 100 100 0 10 10) 0 ≠ .error e := by
  constructor
  · exact ((claim_C2 (fun _ => 0) (fun _ => 0) ⟨100, 100, 1/5, 0, .Call, .European⟩
      (mkCfg (some 0) 1 (1/20) [] 100 100 100 0 10 10) 17532).1 .configError).mpr
      ⟨rfl, 0, rfl,
        by show (1 : ℝ) ≤ yearsBetween 0 17532; rw [yearsBetween_eval]; norm_num⟩
  · intro e h
    obtain ⟨-, d, hdd, hle⟩ := ((claim_C2 (fun _ => 0) (fun _ => 0)
      ⟨100, 100, 1/5, 0, .Call, .European⟩
      (mkCfg (some 0) 1 (1/20) [] 100 100 100 0 10 10) 0).1 e).mp h
    injection hdd with hdd
    subst hdd
    rw [show yearsBetween 0 0 = 0 from by
      unfold yearsBetween trunc0
      norm_num] at hle
    norm_num [mkCfg] at hle

/-- The constant-rate probability of the unit contract
(`S = K = σ = 1`, `q = 0`) under maturity `1`, fallback rate `0` and one
step lies in `[0, 1]`. -/
lemma p_unit_bounds :
    0 ≤ (1 - 1/Real.exp 1) / (Real.exp 1 - 1/Real.exp 1) ∧
      (1 - 1/Real.exp 1) / (Real.exp 1 - 1/Real.exp 1) ≤ 1 := by
  have h1 : (1 : ℝ) < Real.exp 1 := by
    have h := Real.exp_lt_exp.mpr (zero_lt_one (α := ℝ))
    rwa [Real.exp_zero] at h
  have hpos : (0 : ℝ) < Real.exp 1 := Real.exp_pos 1
  have hd1 : 1/Real.exp 1 < 1 := by
    rw [div_lt_one hpos]
    exact h1
  have hden : (0 : ℝ) < Real.exp 1 - 1/Real.exp 1 :=
    sub_pos.mpr (lt_trans hd1 h1)
  constructor
  · exact div_nonneg (by linarith) (le_of_lt hden)
  · rw [div_le_one hden]
    linarith

/-- `binP0` at the unit contract with maturity `1`, fallback `0` and one
step evaluates to `(1 - e⁻¹)/(e - e⁻¹)`. -/
lemma binP0_unit (cd : Option ℝ) (curve : List RatePoint)
    (ty : OptionType) (st : OptionStyle) (nt ns : ℕ) (sm : ℝ) (np nsp : ℕ) :
    binP0 ⟨1, 1, 1, 0, ty, st⟩ (mkCfg cd 1 0 curve 1 nt ns sm np nsp) =
      (1 - 1/Real.exp 1) / (Real.exp 1 - 1/Real.exp 1) := by
  unfold binP0 mkCfg
  norm_num [Real.sqrt_one, Real.exp_zero]

/-- C1: the spec requires every engine to fall back to the constant rate on
an empty curve, and the binomial source even comments that `getRate`
"returns the default risk-free rate" when the curve is not loaded — but
`YieldCurve::getRate` throws on an empty curve and `BinomialPricer::price`
calls it unguarded, so the binomial price fails with `EmptyCurve` instead
of returning the constant-rate price: here evaluated on the unit contract
(whose probability check passes). -/
theorem claim_C1 :
    binomialPrice ⟨1, 1, 1, 0, .Call, .European⟩
        (mkCfg none 1 0 [] 1 100 100 0 10 10) = .error .emptyCurve := by
  unfold binomialPrice
  rw [binP0_unit, if_neg (by push_neg; exact p_unit_bounds)]
  rfl

/-- C4 (amended): `CrankNicolsonPricer::price` performs no `ConfigError`
validation of the discretization counts.  For `M < 3` or `N < 1` it never
raises `ConfigError`: at `M = 0` the tridiagonal vector constructor throws
`std::length_error`, at `M = 1` with `N ≥ 1` the empty tridiagonal vectors
are indexed out of bounds, and in every other case (including all of
`N = 0` and `M = 2`) a value is returned. -/
theorem claim_C4 (opt : Contract) (cfg : PricingConfiguration) (today : ℝ) :
    cnPrice opt cfg today ≠ .error .configError ∧
      (cfg.crankSpotSteps = 0 → cnPrice opt cfg today = .error .lengthError) ∧
      (cfg.crankSpotSteps = 1 → 1 ≤ cfg.crankTimeSteps →
        cnPrice opt cfg today = .error .outOfBounds) ∧
      (cfg.crankSpotSteps ≠ 0 →
        ¬(cfg.crankSpotSteps = 1 ∧ 1 ≤ cfg.crankTimeSteps) →
        cnPrice opt cfg today = .ok (cnPriceValue opt cfg today)) := by
  unfold cnPrice
  split_ifs with h1 h2
  · exact ⟨by simp, fun _ => rfl, fun hm _ => by omega,
      fun hm _ => absurd h1 hm⟩
  · exact ⟨by simp, fun hm => by omega, fun _ _ => rfl,
      fun _ hn => absurd h2 hn⟩
  · exact ⟨by simp, fun hm => absurd hm h1, fun hm hn => absurd ⟨hm, hn⟩ h2,
      fun _ _ => rfl⟩

/-- C4 counterexample: with `N = 0 < 1` time steps (and `M = 4`,
`S_max = 200`) the Crank-Nicolson price of an at-the-money call returns the
interpolated terminal payoff `0` instead of failing with `ConfigError`. -/
theorem claim_C4_counterexample :
    (mkCfg none 1 (1/20) [] 100 0 4 200 10 10).crankTimeSteps < 1 ∧
      cnPrice ⟨100, 100, 1/5, 0, .Call, .European⟩
        (mkCfg none 1 (1/20) [] 100 0 4 200 10 10) 0 = .ok 0 := by
  constructor
  · norm_num [mkCfg]
  · unfold cnPrice cnPriceValue
    norm_num [mkCfg, effMaturity, cnSlices, payoff, Int.toNat_ofNat]
    simp only [show (Int.toNat 2 : ℕ) = 2 from rfl]
    norm_num

/-- Witness for C4 at the three concrete regimes: `M = 0` (length error),
`M = 1, N = 1` (out-of-bounds), and `M = 4, N = 5` (a value). -/
theorem claim_C4_witness :
    cnPrice ⟨100, 100, 1/5, 0, .Call, .European⟩
        (mkCfg none 1 (1/20) [] 100 5 0 200 10 10) 0 = .error .lengthError ∧
      cnPrice ⟨100, 100, 1/5, 0, .Call, .European⟩
          (mkCfg none 1 (1/20) [] 100 1 1 200 10 10) 0 = .error .outOfBounds ∧
      cnPrice ⟨100, 100, 1/5, 0, .Call, .European⟩
          (mkCfg none 1 (1/20) [] 100 5 4 200 10 10) 0 =
        .ok (cnPriceValue ⟨100, 100, 1/5, 0, .Call, .European⟩
          (mkCfg none 1 (1/20) [] 100 5 4 200 10 10) 0) := by
  refine ⟨?_, ?_, ?_⟩
  · exact (claim_C4 ⟨100, 100, 1/5, 0, .Call, .European⟩
      (mkCfg none 1 (1/20) [] 100 5 0 200 10 10) 0).2.1 rfl
  · exact (claim_C4 ⟨100, 100, 1/5, 0, .Call, .European⟩
      (mkCfg none 1 (1/20) [] 100 1 1 200 10 10) 0).2.2.1 rfl (by norm_num [mkCfg])
  · exact (claim_C4 ⟨100, 100, 1/5, 0, .Call, .European⟩
      (mkCfg none 1 (1/20) [] 100 5 4 200 10 10) 0).2.2.2
      (by norm_num [mkCfg]) (by norm_num [mkCfg])

/-- On a non-empty curve the source's backward loop agrees step by step
with the spec's CRR loop: the unguarded `getRate` returns exactly the
spec's `rate_at`. -/
lemma binLoop_eq_crrLoop (opt : Contract) (cfg : PricingConfiguration)
    (u d dt : ℝ) (hcurve : cfg.yieldCurve ≠ []) :
    ∀ (k : ℕ) (v : List ℝ),
      binLoop opt cfg u d dt k v = .ok (crrLoop opt cfg u d dt k v)
  | 0, v => rfl
  | k + 1, v => by
    cases hc : cfg.yieldCurve with
    | nil => exact absurd hc hcurve
    | cons p ps =>
      rw [binLoop, crrLoop, hc,
        getRate_eq_rate_at p ps cfg.riskFreeRate ((k : ℝ) / (cfg.binomialSteps : ℝ))]
      show binLoop opt cfg u d dt k
          (binStepValues opt u d dt
            (rate_at (p :: ps) cfg.riskFreeRate ((k : ℝ) / (cfg.binomialSteps : ℝ))) k v) =
        .ok (crrLoop opt cfg u d dt k (crrStepValues opt cfg u d dt k v))
      rw [binLoop_eq_crrLoop opt cfg u d dt hcurve k _, ← hc]
      rfl

/-- C3 (amended): for a non-empty curve, an empty-probability check that
passes (`p₀ ∈ [0,1]`) and the raw maturity `T` in place of `T_eff` (the
binomial engine never reads the valuation date), the binomial price equals
the root value of the spec's CRR backward induction with per-step curve
rates. -/
theorem claim_C3 (opt : Contract) (cfg : PricingConfiguration)
    (hcurve : cfg.yieldCurve ≠ [])
    (h0 : 0 ≤ binP0 opt cfg) (h1 : binP0 opt cfg ≤ 1) :
    binomialPrice opt cfg = .ok (crrSpecV00 opt cfg cfg.maturity) := by
  simp only [binomialPrice, crrSpecV00]
  rw [if_neg (by push_neg; exact ⟨h0, h1⟩)]
  rw [binLoop_eq_crrLoop opt cfg _ _ _ hcurve]
  rfl

/-- Witness for C3 on the unit contract over the one-point curve
`[(0, 0)]`. -/
theorem claim_C3_witness :
    binomialPrice ⟨1, 1, 1, 0, .Call, .European⟩
        (mkCfg none 1 0 [⟨0, 0⟩] 1 100 100 0 10 10) =
      .ok (crrSpecV00 ⟨1, 1, 1, 0, .Call, .European⟩
        (mkCfg none 1 0 [⟨0, 0⟩] 1 100 100 0 10 10) 1) :=
  claim_C3 ⟨1, 1, 1, 0, .Call, .European⟩
    (mkCfg none 1 0 [⟨0, 0⟩] 1 100 100 0 10 10)
    (by simp [mkCfg])
    (by rw [binP0_unit]; exact p_unit_bounds.1)
    (by rw [binP0_unit]; exact p_unit_bounds.2)

/-- One-step risk-neutral combination: when the local rate equals the
dividend yield the expectation of the two deep in-the-money payoffs
collapses to `S - K`. -/
lemma one_step_combo (E S K : ℝ) (hEpos : 0 < E) (hne : E - 1/E ≠ 0) :
    (1 - 1/E) / (E - 1/E) * (S * E - K) +
      (1 - (1 - 1/E) / (E - 1/E)) * (S * (1/E) - K) = S - K := by
  have hp : (1 - 1/E) / (E - 1/E) * (E - 1/E) = 1 - 1/E :=
    div_mul_cancel₀ _ hne
  have hcombo : (1 - 1/E) / (E - 1/E) * E +
      (1 - (1 - 1/E) / (E - 1/E)) * (1/E) = 1 := by
    have hsplit : (1 - 1/E) / (E - 1/E) * E +
        (1 - (1 - 1/E) / (E - 1/E)) * (1/E) =
        1/E + (1 - 1/E) / (E - 1/E) * (E - 1/E) := by ring
    rw [hsplit, hp]
    have hE0 : E ≠ 0 := ne_of_gt hEpos
    field_simp
  calc (1 - 1/E) / (E - 1/E) * (S * E - K) +
        (1 - (1 - 1/E) / (E - 1/E)) * (S * (1/E) - K) =
      S * ((1 - 1/E) / (E - 1/E) * E +
        (1 - (1 - 1/E) / (E - 1/E)) * (1/E)) - K := by ring
    _ = S - K := by rw [hcombo]; ring

/-- Unrolling of the binomial backward loop at `N = 1`. -/
lemma binLoop_one (opt : Contract) (cfg : PricingConfiguration)
    (u d dt : ℝ) (v : List ℝ) :
    binLoop opt cfg u d dt 1 v =
      match getRate cfg.yieldCurve (((0 : ℕ) : ℝ) / (cfg.binomialSteps : ℝ)) with
      | .error e => .error e
      | .ok r => .ok (binStepValues opt u d dt r 0 v) := rfl

/-- Unrolling of the spec's CRR loop at `N = 1`. -/
lemma crrLoop_one (opt : Contract) (cfg : PricingConfiguration)
    (u d dt : ℝ) (v : List ℝ) :
    crrLoop opt cfg u d dt 1 v = crrStepValues opt cfg u d dt 0 v := rfl

/-- The probability check input of the second counterexample contract:
`σ = 1`, `rFallback = q = 1`, `T = 1`, one step. -/
lemma binP0_evalB :
    binP0 ⟨100, 1, 1, 1, .Call, .European⟩
        (mkCfg (some 0) 1 1 [⟨0, 1⟩] 1 100 100 0 10 10) =
      (1 - 1/Real.exp 1) / (Real.exp 1 - 1/Real.exp 1) := by
  unfold binP0 mkCfg
  norm_num [Real.sqrt_one, Real.exp_zero]

/-- The probability check input of the first counterexample contract:
`σ = 1/10`, `rFallback = 2`, `q = 0`, `T = 1`, one step. -/
lemma binP0_evalA :
    binP0 ⟨1, 1, 1/10, 0, .Call, .European⟩
        (mkCfg none 1 2 [⟨0, 1/100⟩] 1 100 100 0 10 10) =
      (Real.exp 2 - 1/Real.exp (1/10)) /
        (Real.exp (1/10) - 1/Real.exp (1/10)) := by
  unfold binP0 mkCfg
  norm_num [Real.sqrt_one]

/-- With fallback rate `2` and volatility `1/10` the constant-rate
probability exceeds one. -/
lemma pA_gt_one :
    1 < (Real.exp 2 - 1/Real.exp (1/10)) /
        (Real.exp (1/10) - 1/Real.exp (1/10)) := by
  have hu1 : (1 : ℝ) < Real.exp (1/10) := by
    have h := Real.exp_lt_exp.mpr (show (0:ℝ) < 1/10 by norm_num)
    rwa [Real.exp_zero] at h
  have hupos : (0 : ℝ) < Real.exp (1/10) := Real.exp_pos _
  have hdlt : 1/Real.exp (1/10) < 1 := by
    rw [div_lt_one hupos]
    exact hu1
  have hden : (0 : ℝ) < Real.exp (1/10) - 1/Real.exp (1/10) := by linarith
  have hnum : Real.exp (1/10) < Real.exp 2 :=
    Real.exp_lt_exp.mpr (by norm_num)
  rw [lt_div_iff₀ hden]
  linarith

/-- The year offset of the second counterexample valuation date: 4383
hours are half of a 365.25-day year. -/
lemma yearsBetween_half : yearsBetween 0 4383 = 1/2 := by
  unfold yearsBetween trunc0
  rw [if_pos (by norm_num)]
  norm_num

set_option maxHeartbeats 1000000 in
/-- Evaluation of the source's binomial price on the second counterexample
input: maturity `T = 1` is used for `Δt` even though a valuation date half
a year in the past is configured, giving `99·e⁻¹`. -/
lemma cexB_code :
    binomialPrice ⟨100, 1, 1, 1, .Call, .European⟩
        (mkCfg (some 0) 1 1 [⟨0, 1⟩] 1 100 100 0 10 10) =
      .ok (99 * Real.exp (-1)) := by
  simp only [binomialPrice]
  rw [binP0_evalB, if_neg (by push_neg; exact p_unit_bounds)]
  dsimp only [mkCfg]
  rw [binLoop_one]
  rw [show getRate [⟨0, (1:ℝ)⟩] (((0 : ℕ) : ℝ) / (((1:ℕ)) : ℝ)) = .ok 1 from by
    rw [getRate_cons, if_pos (by norm_num)]]
  refine congrArg Except.ok ?_
  simp only [binStepValues, binTerminal, List.range_succ, List.range_zero,
    List.map_cons, List.map_nil, List.nil_append, List.cons_append,
    List.getD_cons_zero, List.getD_cons_succ, payoff]
  norm_num [Real.sqrt_one, Real.exp_zero]
  simp only [← one_div]
  have hE1 : (1:ℝ) < Real.exp 1 := by
    have h := Real.exp_lt_exp.mpr (zero_lt_one (α := ℝ))
    rwa [Real.exp_zero] at h
  have hEpos : (0:ℝ) < Real.exp 1 := Real.exp_pos 1
  have hE100 : Real.exp 1 < 100 := lt_trans Real.exp_one_lt_d9 (by norm_num)
  have hd1 : 1/Real.exp 1 < 1 := by
    rw [div_lt_one hEpos]
    exact hE1
  have hne : Real.exp 1 - 1/Real.exp 1 ≠ 0 := ne_of_gt (by linarith)
  have hitm : (1:ℝ) ≤ 100 * (1/Real.exp 1) := by
    rw [mul_one_div, le_div_iff₀ hEpos]
    linarith
  rw [max_eq_left (by nlinarith : (0:ℝ) ≤ 100 * Real.exp 1 - 1),
    max_eq_left (by linarith : (0:ℝ) ≤ 100 * (1/Real.exp 1) - 1),
    one_step_combo (Real.exp 1) 100 1 hEpos hne]
  ring

set_option maxHeartbeats 1000000 in
/-- Evaluation of the spec's CRR root value on the second counterexample
input at the true effective maturity `T_eff = 1/2`, giving `99·e^(-1/2)`. -/
lemma cexB_spec :
    crrSpecV00 ⟨100, 1, 1, 1, .Call, .European⟩
        (mkCfg (some 0) 1 1 [⟨0, 1⟩] 1 100 100 0 10 10) (1/2) =
      99 * Real.exp (-(1/2)) := by
  simp only [crrSpecV00]
  dsimp only [mkCfg]
  rw [crrLoop_one]
  simp only [crrStepValues, crrTerminal, List.range_succ, List.range_zero,
    List.map_cons, List.map_nil, List.nil_append, List.cons_append,
    List.getD_cons_zero, List.getD_cons_succ, payoff]
  rw [show rate_at [⟨0, (1:ℝ)⟩] 1 (((0 : ℕ) : ℝ) / (((1:ℕ)) : ℝ)) = 1 from by
    unfold rate_at
    rw [getRate_cons, if_pos (by norm_num)]]
  norm_num [Real.exp_zero]
  simp only [← one_div]
  have hs2 : (1:ℝ) ≤ Real.sqrt 2 := by
    rw [show (1:ℝ) = Real.sqrt 1 from (Real.sqrt_one).symm]
    exact Real.sqrt_le_sqrt (by norm_num)
  have hspos : (0:ℝ) < Real.sqrt 2 := by positivity
  have hs1 : 1/Real.sqrt 2 ≤ 1 := by
    rw [div_le_one hspos]
    exact hs2
  have hs0 : (0:ℝ) < 1/Real.sqrt 2 := by positivity
  have hF1 : (1:ℝ) < Real.exp (1/Real.sqrt 2) := by
    have h := Real.exp_lt_exp.mpr hs0
    rwa [Real.exp_zero] at h
  have hFpos : (0:ℝ) < Real.exp (1/Real.sqrt 2) := Real.exp_pos _
  have hF100 : Real.exp (1/Real.sqrt 2) < 100 :=
    lt_of_le_of_lt (Real.exp_le_exp.mpr hs1)
      (lt_trans Real.exp_one_lt_d9 (by norm_num))
  have hd1 : 1/Real.exp (1/Real.sqrt 2) < 1 := by
    rw [div_lt_one hFpos]
    exact hF1
  have hne : Real.exp (1/Real.sqrt 2) - 1/Real.exp (1/Real.sqrt 2) ≠ 0 :=
    ne_of_gt (by linarith)
  have hitm : (1:ℝ) ≤ 100 * (1/Real.exp (1/Real.sqrt 2)) := by
    rw [mul_one_div, le_div_iff₀ hFpos]
    linarith
  rw [max_eq_left (by nlinarith : (0:ℝ) ≤ 100 * Real.exp (1/Real.sqrt 2) - 1),
    max_eq_left (by linarith : (0:ℝ) ≤ 100 * (1/Real.exp (1/Real.sqrt 2)) - 1),
    one_step_combo (Real.exp (1/Real.sqrt 2)) 100 1 hFpos hne]
  ring

/-- C3 counterexample, both defects at concrete inputs.  First: with a
non-empty curve but `rFallback = 2` the constant-rate probability exceeds
one and the source throws `UnstableTree`, so its price cannot equal the
spec's (total) CRR value.  Second: with a valuation date half a year in the
past the source still uses `Δt = T/N` while the spec prescribes
`Δt = T_eff/N`; on a deep in-the-money one-step call the source returns
`99·e⁻¹` whereas the spec's backward induction at the true `T_eff` gives
`99·e^(-1/2)`. -/
theorem claim_C3_counterexample :
    binomialPrice ⟨1, 1, 1/10, 0, .Call, .European⟩
        (mkCfg none 1 2 [⟨0, 1/100⟩] 1 100 100 0 10 10) =
      .error .unstableTree ∧
      binomialPrice ⟨100, 1, 1, 1, .Call, .European⟩
          (mkCfg (some 0) 1 1 [⟨0, 1⟩] 1 100 100 0 10 10) ≠
        .ok (crrSpecV00 ⟨100, 1, 1, 1, .Call, .European⟩
          (mkCfg (some 0) 1 1 [⟨0, 1⟩] 1 100 100 0 10 10)
          (effMaturity (mkCfg (some 0) 1 1 [⟨0, 1⟩] 1 100 100 0 10 10) 4383)) := by
  constructor
  · simp only [binomialPrice]
    rw [binP0_evalA, if_pos (Or.inr pA_gt_one)]
  · have heff : effMaturity (mkCfg (some 0) 1 1 [⟨0, 1⟩] 1 100 100 0 10 10) 4383 =
        1/2 := by
      show (1:ℝ) - yearsBetween 0 4383 = 1/2
      rw [yearsBetween_half]
      norm_num
    rw [heff, cexB_spec, cexB_code]
    simp only [ne_eq, Except.ok.injEq]
    intro h
    have h2 := mul_left_cancel₀ (by norm_num : (99:ℝ) ≠ 0) h
    rw [Real.exp_eq_exp] at h2
    norm_num at h2

end

end MultiModelPricer
